import Mathlib

/-!
Verification of the Dartmouth model-grid code (`isochrones.dartmouth`):
shallow embedding of `grid.py`, `tri.py` and the persistence behaviour
exercised by `tests/test_fits.py`, with theorems settling the frozen claims.

Modelling conventions:
* Python strings are Lean `String`s; character classes of the regexes
  (`[a-zA-Z]`, `\d`, `\s`, `[mp]`) are modelled over ASCII via `Char.isAlpha`,
  `Char.isDigit` and an explicit whitespace test.
* Python floats appearing as table data are modelled as `ℚ` (all values in the
  data files are finite decimals); the one transcendental operation,
  `np.log10`, is modelled over `ℝ`.
* A Python function that can raise is modelled as `Except`/`Option`.
-/

namespace Isochrones

/-- ASCII whitespace, modelling the regex class `\s`. -/
def isPySpace (c : Char) : Bool :=
  c = ' ' || c = '\t' || c = '\n' || c = '\r' || c = '\x0b' || c = '\x0c'

/-- Numeric value of a list of ASCII digits (most significant first),
modelling `float`/`int` conversion of a matched digit group. -/
def digitsToNat (ds : List Char) : ℕ :=
  ds.foldl (fun n c => 10 * n + (c.toNat - '0'.toNat)) 0

/-! ## Band alias resolution (`DartmouthModelGrid.get_band`) -/

/-- `DartmouthModelGrid.phot_systems` from `grid.py`. -/
def phot_systems : List String :=
  ["SDSSugriz", "UBVRIJHKsKp", "WISE", "LSST", "UKIDSS", "HST_WFPC2"]

/-- `re.match('([a-zA-Z]+)_([a-zA-Z_]+)', b)`: an anchored match of a maximal
nonempty letter run, an underscore, then a maximal nonempty run of letters and
underscores; returns the two groups.  (Both `+` groups are effectively
possessive here: `_` is not a letter, so no backtracking can succeed.) -/
def matchSys (b : String) : Option (String × String) :=
  let g1 := b.data.takeWhile Char.isAlpha
  match g1, b.data.drop g1.length with
  | [], _ => none
  | _, '_' :: rest =>
    match rest.takeWhile (fun c => c.isAlpha || c = '_') with
    | [] => none
    | g2 => some (String.mk g1, String.mk g2)
  | _, _ => none

/-- `re.match('HST_([a-zA-Z\d]+)_([a-zA-Z_\d]+)', b)`: the literal `HST_`,
a maximal nonempty alphanumeric run, an underscore, then a maximal nonempty
run of letters, digits and underscores. -/
def matchHST (b : String) : Option (String × String) :=
  match b.data with
  | 'H' :: 'S' :: 'T' :: '_' :: rest =>
    let g1 := rest.takeWhile (fun c => c.isAlpha || c.isDigit)
    match g1, rest.drop g1.length with
    | [], _ => none
    | _, '_' :: rest2 =>
      match rest2.takeWhile (fun c => c.isAlpha || c.isDigit || c = '_') with
      | [] => none
      | g2 => some (String.mk g1, String.mk g2)
    | _, _ => none
  | _ => none

/-- The `if m:` block of `get_band`: tentative resolution of `phot`/`band`
from the first regex. -/
def sysResolve (b : String) : Option (String × String) :=
  match matchSys b with
  | some (s1, s2) =>
    if s1 ∈ phot_systems then
      if s1 = "LSST" then some (s1, b) else some (s1, s2)
    else if s1 ∈ (["UK", "UKIRT"] : List String) then some ("UKIDSS", s2)
    else none
  | none => none

/-- The fall-through branch of `get_band`: the resolution from the first regex
(`m`), overridden by the `HST` regex (`m2`) when the latter matches and names a
known system, exactly as the two sequential `if` blocks in the source assign
`phot`/`band`. -/
def regexResolve (b : String) : Option (String × String) :=
  match matchHST b with
  | some (g1, g2) =>
    if ("HST_" ++ g1) ∈ phot_systems then some ("HST_" ++ g1, g1 ++ "_" ++ g2)
    else sysResolve b
  | none => sysResolve b

/-- `DartmouthModelGrid.get_band` from `grid.py`: shortcut-name resolution;
`.error` models `raise ValueError(...)` with the formatted message. -/
def get_band (b : String) : Except String (String × String) :=
  if b ∈ (["u", "g", "r", "i", "z"] : List String) then
    .ok ("SDSSugriz", "sdss_" ++ b)
  else if b ∈ (["U", "B", "V", "R", "I", "J", "H", "Ks"] : List String) then
    .ok ("UBVRIJHKsKp", b)
  else if b = "K" then
    .ok ("UBVRIJHKsKp", "Ks")
  else if b ∈ (["kep", "Kepler", "Kp"] : List String) then
    .ok ("UBVRIJHKsKp", "Kp")
  else if b ∈ (["W1", "W2", "W3", "W4"] : List String) then
    .ok ("WISE", b)
  else if b ∈ (["F555W", "F606W", "F814W"] : List String) then
    .ok ("HST_WFPC2", "WFPC2_" ++ b)
  else if b ∈ (["WFPC2_F555W", "WFPC2_F606W", "WFPC2_F814W"] : List String) then
    .ok ("HST_WFPC2", b)
  else
    match regexResolve b with
    | some pb => .ok pb
    | none => .error ("Dartmouth Models cannot resolve band " ++ b ++ "!")

example : get_band "g" = .ok ("SDSSugriz", "sdss_g") := rfl
example : get_band "K" = .ok ("UBVRIJHKsKp", "Ks") := rfl
example : get_band "F555W" = .ok ("HST_WFPC2", "WFPC2_F555W") := rfl
example : get_band "LSST_g" = .ok ("LSST", "LSST_g") := rfl
example : get_band "UK_J" = .ok ("UKIDSS", "J") := rfl
example : get_band "HST_WFPC2_F606W" = .ok ("HST_WFPC2", "WFPC2_F606W") := rfl
example : get_band "nonsense" =
    .error "Dartmouth Models cannot resolve band nonsense!" := rfl

/-- Whenever the `m`-regex branch resolves, the returned system is one of the
declared photometric systems. -/
theorem sysResolve_mem {b p bd : String} (h : sysResolve b = some (p, bd)) :
    p ∈ phot_systems := by
  rw [sysResolve] at h
  cases h1 : matchSys b with
  | none => rw [h1] at h; exact absurd h (by simp)
  | some g =>
    obtain ⟨s1, s2⟩ := g
    rw [h1] at h
    dsimp only at h
    by_cases hmem : s1 ∈ phot_systems
    · rw [if_pos hmem] at h
      by_cases hl : s1 = "LSST"
      · rw [if_pos hl] at h
        injection h with h'
        injection h' with hp hb
        subst hp; exact hmem
      · rw [if_neg hl] at h
        injection h with h'
        injection h' with hp hb
        subst hp; exact hmem
    · rw [if_neg hmem] at h
      by_cases hUK : s1 ∈ (["UK", "UKIRT"] : List String)
      · rw [if_pos hUK] at h
        injection h with h'
        injection h' with hp hb
        subst hp; decide
      · rw [if_neg hUK] at h; exact absurd h (by simp)

/-- Whenever the fall-through regex branch resolves, the returned system is one
of the declared photometric systems. -/
theorem regexResolve_mem {b p bd : String} (h : regexResolve b = some (p, bd)) :
    p ∈ phot_systems := by
  rw [regexResolve] at h
  cases h2 : matchHST b with
  | none => rw [h2] at h; exact sysResolve_mem h
  | some g =>
    obtain ⟨g1, g2⟩ := g
    rw [h2] at h
    dsimp only at h
    by_cases hg : ("HST_" ++ g1) ∈ phot_systems
    · rw [if_pos hg] at h
      injection h with h'
      injection h' with hp hb
      subst hp; exact hg
    · rw [if_neg hg] at h; exact sysResolve_mem h

/-- Claim C1: `get_band` resolves `g` to `(SDSSugriz, sdss_g)`, `K` to
`(UBVRIJHKsKp, Ks)` and `F555W` to `(HST_WFPC2, WFPC2_F555W)`; and on every
band-name string it either returns a pair whose first component is a declared
photometric system, or raises the `ValueError` naming the band — it never
returns an unresolved value. -/
theorem get_band_resolution :
    get_band "g" = .ok ("SDSSugriz", "sdss_g") ∧
    get_band "K" = .ok ("UBVRIJHKsKp", "Ks") ∧
    get_band "F555W" = .ok ("HST_WFPC2", "WFPC2_F555W") ∧
    ∀ b : String,
      (∃ p bd, get_band b = .ok (p, bd) ∧ p ∈ phot_systems) ∨
      get_band b = .error ("Dartmouth Models cannot resolve band " ++ b ++ "!") := by
  refine ⟨rfl, rfl, rfl, fun b => ?_⟩
  rw [get_band]
  split_ifs with h1 h2 h3 h4 h5 h6 h7
  · exact Or.inl ⟨_, _, rfl, by decide⟩
  · exact Or.inl ⟨_, _, rfl, by decide⟩
  · exact Or.inl ⟨_, _, rfl, by decide⟩
  · exact Or.inl ⟨_, _, rfl, by decide⟩
  · exact Or.inl ⟨_, _, rfl, by decide⟩
  · exact Or.inl ⟨_, _, rfl, by decide⟩
  · exact Or.inl ⟨_, _, rfl, by decide⟩
  · cases hr : regexResolve b with
    | some pb =>
      obtain ⟨p, bd⟩ := pb
      exact Or.inl ⟨p, bd, rfl, regexResolve_mem hr⟩
    | none => exact Or.inr rfl

/-! ## Metallicity extraction (`DartmouthModelGrid.get_feh`) -/

/-- The signed value returned for a matched sign letter and digit group:
`float(m.group(2))/10 * sign` with `sign = 1 if m.group(1)=='p' else -1`. -/
def fehVal (c : Char) (ds : List Char) : ℚ :=
  (digitsToNat ds : ℚ) / 10 * (if c = 'p' then 1 else -1)

/-- An anchored attempt of the regex `feh([mp])(\d+)afe` at the front of the
character list: the literal `feh`, one sign letter `m`/`p`, a maximal nonempty
digit run, then the literal `afe`.  (The greedy `\d+` cannot backtrack
successfully: any shorter digit run is followed by a digit, not by `a`.) -/
def tryMatchFeh : List Char → Option ℚ
  | 'f' :: 'e' :: 'h' :: c :: rest =>
    if c = 'm' ∨ c = 'p' then
      match rest.takeWhile Char.isDigit, rest.dropWhile Char.isDigit with
      | [], _ => none
      | d :: ds, 'a' :: 'f' :: 'e' :: _ => some (fehVal c (d :: ds))
      | _, _ => none
    else none
  | _ => none

/-- `re.search`: try the anchored match at every start position, left to
right. -/
def searchFeh : List Char → Option ℚ
  | [] => none
  | c :: rest =>
    match tryMatchFeh (c :: rest) with
    | some v => some v
    | none => searchFeh rest

/-- `DartmouthModelGrid.get_feh` from `grid.py`: metallicity from the
filename, `none` when the pattern is absent (Python's implicit `return None`). -/
def get_feh (filename : String) : Option ℚ :=
  searchFeh filename.data

/-- The extraction as the spec words it (for comparison with `get_feh`):
`feh` followed by a sign letter and a two-digit magnitude — exactly two
digits, with no requirement of a trailing `afe`. -/
def tryMatchFehSpec : List Char → Option ℚ
  | 'f' :: 'e' :: 'h' :: c :: d1 :: d2 :: _ =>
    if (c = 'm' ∨ c = 'p') ∧ d1.isDigit ∧ d2.isDigit then some (fehVal c [d1, d2])
    else none
  | _ => none

/-- `re.search` over the spec-worded pattern. -/
def searchFehSpec : List Char → Option ℚ
  | [] => none
  | c :: rest =>
    match tryMatchFehSpec (c :: rest) with
    | some v => some v
    | none => searchFehSpec rest

/-- Metallicity extraction as described by the claim (two-digit magnitude, no
`afe` suffix), to be compared against the code's `get_feh`. -/
def get_feh_spec (filename : String) : Option ℚ :=
  searchFehSpec filename.data

example : get_feh "m920feh 100p05afem25 .UBVRIJHKsKp" = none := by decide
example : get_feh "fehm05afep2.UBVRIJHKsKp" = some (-1/2) := by
  have h : get_feh "fehm05afep2.UBVRIJHKsKp" = some (fehVal 'm' ['0', '5']) := rfl
  rw [h]
  norm_num [fehVal, show digitsToNat ['0', '5'] = 5 from by decide,
    show ¬ ('m' = 'p') from by decide]
example : get_feh "fehp2afe" = some (1/5) := by
  have h : get_feh "fehp2afe" = some (fehVal 'p' ['2']) := rfl
  rw [h]
  norm_num [fehVal, show digitsToNat ['2'] = 2 from by decide]

/-- Splitting a list at the first element falsifying `p`: `takeWhile` keeps
exactly the leading block, `dropWhile` starts at that element. -/
theorem takeWhile_dropWhile_append {α : Type} {p : α → Bool} {y : α}
    (hy : p y = false) (ys : List α) :
    ∀ ds : List α, (∀ d ∈ ds, p d = true) →
      (ds ++ y :: ys).takeWhile p = ds ∧ (ds ++ y :: ys).dropWhile p = y :: ys
  | [], _ => by simp [List.takeWhile_cons, List.dropWhile_cons, hy]
  | d :: ds, h => by
    have hd : p d = true := h d (List.mem_cons_self d ds)
    have ih := takeWhile_dropWhile_append hy ys ds
      (fun x hx => h x (List.mem_cons_of_mem d hx))
    simp [List.takeWhile_cons, List.dropWhile_cons, hd, ih.1, ih.2]

/-- The anchored `feh([mp])(\d+)afe` attempt succeeds on a string that is
literally of the matched shape. -/
theorem tryMatchFeh_eq_some {c : Char} (hc : c = 'm' ∨ c = 'p')
    {d : Char} {ds post : List Char} (hd : ∀ x ∈ d :: ds, x.isDigit = true) :
    tryMatchFeh ('f' :: 'e' :: 'h' :: c :: ((d :: ds) ++ 'a' :: 'f' :: 'e' :: post))
      = some (fehVal c (d :: ds)) := by
  have ha : ('a').isDigit = false := by decide
  have h := takeWhile_dropWhile_append ha ('f' :: 'e' :: post) (d :: ds) hd
  simp only [tryMatchFeh, if_pos hc, h.1, h.2]

/-- The anchored attempt fails whenever the list does not start with `f`. -/
theorem tryMatchFeh_not_f {x : Char} (hx : x ≠ 'f') (xs : List Char) :
    tryMatchFeh (x :: xs) = none := by
  rw [tryMatchFeh.eq_def]
  split
  · next heq => injection heq with h1 _; exact absurd h1 hx
  · rfl

/-- `re.search` skips over a block that contains no `f` at all. -/
theorem searchFeh_append_no_f {pre : List Char} (l : List Char) (h : 'f' ∉ pre) :
    searchFeh (pre ++ l) = searchFeh l := by
  induction pre with
  | nil => rfl
  | cons x xs ih =>
    have hx : x ≠ 'f' := fun e => h (e ▸ List.mem_cons_self x xs)
    rw [List.cons_append, searchFeh, tryMatchFeh_not_f hx]
    exact ih (fun m => h (List.mem_cons_of_mem _ m))

/-- If the anchored attempt succeeds at some position, `re.search` finds a
match (at that position or an earlier one). -/
theorem searchFeh_isSome_of_tryMatch {v : ℚ} :
    ∀ (pre suf : List Char), tryMatchFeh suf = some v →
      (searchFeh (pre ++ suf)).isSome = true
  | [], suf, h => by
    cases suf with
    | nil => exact absurd h (by simp [tryMatchFeh])
    | cons c rest => simp only [List.nil_append, searchFeh, h, Option.isSome_some]
  | x :: xs, suf, h => by
    rw [List.cons_append, searchFeh]
    cases ht : tryMatchFeh (x :: (xs ++ suf)) with
    | some w => rfl
    | none => exact searchFeh_isSome_of_tryMatch xs suf h

/-- A successful `re.search` decomposes the list into a skipped part and a
suffix where the anchored attempt succeeds. -/
theorem searchFeh_some_decomp :
    ∀ (l : List Char) (v : ℚ), searchFeh l = some v →
      ∃ pre suf, l = pre ++ suf ∧ tryMatchFeh suf = some v
  | [], v, h => absurd h (by simp [searchFeh])
  | c :: rest, v, h => by
    rw [searchFeh] at h
    cases ht : tryMatchFeh (c :: rest) with
    | some w =>
      rw [ht] at h
      injection h with h'
      exact ⟨[], c :: rest, rfl, by rw [ht, h']⟩
    | none =>
      rw [ht] at h
      obtain ⟨pre, suf, hl, hm⟩ := searchFeh_some_decomp rest v h
      exact ⟨c :: pre, suf, by rw [List.cons_append, hl], hm⟩

/-- A successful anchored attempt exhibits the matched shape at the front. -/
theorem tryMatchFeh_some_decomp {l : List Char} {v : ℚ}
    (h : tryMatchFeh l = some v) :
    ∃ c ds post, l = 'f' :: 'e' :: 'h' :: c :: (ds ++ 'a' :: 'f' :: 'e' :: post) ∧
      (c = 'm' ∨ c = 'p') ∧ ds ≠ [] ∧ ∀ x ∈ ds, x.isDigit = true := by
  rw [tryMatchFeh.eq_def] at h
  split at h
  · next c rest =>
    split_ifs at h with hc
    split at h
    · exact absurd h (by simp)
    · next d ds tail h1 h2 =>
      refine ⟨c, d :: ds, tail, ?_, hc, by simp, ?_⟩
      · have := List.takeWhile_append_dropWhile Char.isDigit rest
        rw [h1, h2] at this
        rw [← this]
      · intro x hx
        rw [← h1] at hx
        exact List.mem_takeWhile_imp hx
    · exact absurd h (by simp)
  · exact absurd h (by simp)

/-- The `feh`-pattern of the amended claim: somewhere in the string, `feh`,
a sign letter `m`/`p`, a nonempty digit run, then the literal `afe`. -/
def FehMatch (s : String) : Prop :=
  ∃ pre c ds post,
    s.data = pre ++ 'f' :: 'e' :: 'h' :: c :: (ds ++ 'a' :: 'f' :: 'e' :: post) ∧
    (c = 'm' ∨ c = 'p') ∧ ds ≠ [] ∧ ∀ x ∈ ds, x.isDigit = true

/-- Claim C4, counterexample: the code's pattern requires neither exactly two
digits nor nothing after them — it accepts one digit (`fehp5afe`, claimed
unmatchable, yields `0.5`) and demands a literal `afe` suffix (`fehp25`,
matching the claimed pattern `feh`+sign+two digits, yields `None`).
`get_feh_spec` is the claim's wording; `get_feh` is the code. -/
theorem get_feh_two_digit_counterexample :
    get_feh "fehp5afe" = some (1/2) ∧ get_feh_spec "fehp5afe" = none ∧
    get_feh "fehp25" = none ∧ get_feh_spec "fehp25" = some (5/2) := by
  refine ⟨?_, by decide, by decide, ?_⟩
  · have h : get_feh "fehp5afe" = some (fehVal 'p' ['5']) := rfl
    rw [h]
    norm_num [fehVal, show digitsToNat ['5'] = 5 from by decide]
  · have h : get_feh_spec "fehp25" = some (fehVal 'p' ['2', '5']) := rfl
    rw [h]
    norm_num [fehVal, show digitsToNat ['2', '5'] = 25 from by decide]

/-- Claim C4 as amended: `get_feh` extracts metallicity via the fixed lexical
pattern `feh`, a sign letter (`p` for +, `m` for −), one or more digits, and
the literal `afe`; it returns the digit run's value divided by 10 with the
sign determined by the letter, and returns `None` exactly when that pattern is
absent from the filename. -/
theorem get_feh_amended :
    (∀ (pre : List Char) (c : Char) (ds post : List Char),
      'f' ∉ pre → (c = 'm' ∨ c = 'p') → ds ≠ [] → (∀ x ∈ ds, x.isDigit = true) →
      get_feh (String.mk (pre ++ 'f' :: 'e' :: 'h' :: c :: (ds ++ 'a' :: 'f' :: 'e' :: post)))
        = some (fehVal c ds)) ∧
    (∀ s : String, (get_feh s).isSome = true ↔ FehMatch s) := by
  constructor
  · intro pre c ds post hpre hc hne hdig
    cases ds with
    | nil => exact absurd rfl hne
    | cons d ds' =>
      show searchFeh (pre ++ _) = _
      rw [searchFeh_append_no_f _ hpre, searchFeh,
        tryMatchFeh_eq_some hc hdig]
  · intro s
    constructor
    · intro h
      obtain ⟨v, hv⟩ := Option.isSome_iff_exists.mp h
      obtain ⟨pre, suf, hl, hm⟩ := searchFeh_some_decomp s.data v hv
      obtain ⟨c, ds, post, hsuf, hc, hne, hdig⟩ := tryMatchFeh_some_decomp hm
      exact ⟨pre, c, ds, post, by rw [hl, hsuf], hc, hne, hdig⟩
    · rintro ⟨pre, c, ds, post, hl, hc, hne, hdig⟩
      cases ds with
      | nil => exact absurd rfl hne
      | cons d ds' =>
        show (searchFeh s.data).isSome = true
        rw [hl]
        exact searchFeh_isSome_of_tryMatch pre _ (tryMatchFeh_eq_some hc hdig)

/-- Concrete instantiation of `get_feh_amended`: the pattern embedded in
`xfehp31afez` is found and valued as `+3.1`. -/
theorem get_feh_amended_witness :
    get_feh (String.mk (['x'] ++ 'f' :: 'e' :: 'h' :: 'p' :: (['3', '1'] ++ 'a' :: 'f' :: 'e' :: ['z'])))
      = some (fehVal 'p' ['3', '1']) :=
  get_feh_amended.1 ['x'] 'p' ['3', '1'] ['z'] (by decide) (Or.inr rfl)
    (by decide) (by decide)

/-! ## Age markers and track parsing (`DartmouthModelGrid.to_df`) -/

/-- `re.match('#', line)`: the line starts with `#`. -/
def isComment (l : String) : Bool :=
  match l.data with
  | '#' :: _ => true
  | _ => false

/-- `re.search('\d', line)`: the line contains a digit. -/
def hasDigit (l : String) : Bool :=
  l.data.any Char.isDigit

/-- Value of a matched `(\d+\.\d+)` group, integer and fractional digits. -/
def markerVal (ip fp : List Char) : ℚ :=
  (digitsToNat ip : ℚ) + (digitsToNat fp : ℚ) / 10 ^ fp.length

/-- `re.match('#AGE=\s*(\d+\.\d+)\s+', line)`: the literal `#AGE=`, optional
whitespace, a nonempty digit run, a dot, a nonempty digit run, then at least
one whitespace character; returns the parsed float. -/
def parseAgeMarker (l : String) : Option ℚ :=
  match l.data with
  | '#' :: 'A' :: 'G' :: 'E' :: '=' :: rest =>
    let rest1 := rest.dropWhile isPySpace
    match rest1.takeWhile Char.isDigit, rest1.dropWhile Char.isDigit with
    | [], _ => none
    | d :: ds, '.' :: rest2 =>
      match rest2.takeWhile Char.isDigit, rest2.dropWhile Char.isDigit with
      | [], _ => none
      | e :: es, c :: _ =>
        if isPySpace c then some (markerVal (d :: ds) (e :: es)) else none
      | _, [] => none
    | _, _ => none
  | _ => none

example : parseAgeMarker "#AGE= 1.250 EEPS= 229\n" = some (markerVal ['1'] ['2', '5', '0']) := rfl
example : parseAgeMarker "#AGE=banana" = none := by decide
example : parseAgeMarker "#AGE= 5. EEPS" = none := by decide
example : parseAgeMarker "# AGE= 1.0 " = none := by decide

/-- The age-assignment loop of `to_df`: walk the lines with the running
`curage` (updated by every well-formed `#AGE=` marker), emitting the current
age for every non-comment line that contains a digit. -/
def scanAges : List String → ℚ → List ℚ
  | [], _ => []
  | l :: ls, cur =>
    if isComment l then
      match parseAgeMarker l with
      | some a => scanAges ls a
      | none => scanAges ls cur
    else if hasDigit l then cur :: scanAges ls cur
    else scanAges ls cur

/-- The `age` column computed by `to_df` (`curage` starts at `0`). -/
def toDfAges (lines : List String) : List ℚ :=
  scanAges lines 0

/-- Number of data rows (non-comment, digit-bearing lines) among `lines`. -/
def countDataRows (lines : List String) : ℕ :=
  lines.countP (fun l => !isComment l && hasDigit l)

/-- The running `curage` after the loop has walked `lines`. -/
def lastAge (lines : List String) (cur : ℚ) : ℚ :=
  lines.foldl (fun c l => if isComment l then (parseAgeMarker l).getD c else c) cur

/-- A line carrying a well-formed `#AGE=` marker is a comment line. -/
theorem parseAgeMarker_isComment {l : String} {a : ℚ}
    (h : parseAgeMarker l = some a) : isComment l = true := by
  rw [parseAgeMarker.eq_def] at h
  split at h
  · next heq => simp only [isComment, heq]
  · exact absurd h (by simp)

/-- The scan distributes over concatenation, with the running age threaded
through. -/
theorem scanAges_append (xs ys : List String) (cur : ℚ) :
    scanAges (xs ++ ys) cur = scanAges xs cur ++ scanAges ys (lastAge xs cur) := by
  induction xs generalizing cur with
  | nil => rfl
  | cons x xs ih =>
    rw [List.cons_append, scanAges, scanAges]
    by_cases hc : isComment x
    · rw [if_pos hc, if_pos hc]
      have hl : lastAge (x :: xs) cur = lastAge xs ((parseAgeMarker x).getD cur) := by
        simp [lastAge, List.foldl_cons, hc]
      cases hm : parseAgeMarker x with
      | some a => rw [hl, hm]; exact ih a
      | none => rw [hl, hm]; exact ih cur
    · have hl : lastAge (x :: xs) cur = lastAge xs cur := by
        simp [lastAge, List.foldl_cons, hc]
      rw [if_neg hc, if_neg hc, hl]
      by_cases hd : hasDigit x
      · rw [if_pos hd, if_pos hd, ih, List.cons_append]
      · rw [if_neg hd, if_neg hd, ih]

/-- Over a block with no well-formed marker, every data row receives the
incoming age unchanged. -/
theorem scanAges_no_marker (suf : List String) (a : ℚ)
    (h : ∀ l ∈ suf, parseAgeMarker l = none) :
    scanAges suf a = List.replicate (countDataRows suf) a := by
  induction suf with
  | nil => rfl
  | cons l ls ih =>
    have hm : parseAgeMarker l = none := h l (List.mem_cons_self l ls)
    have ih' := ih (fun x hx => h x (List.mem_cons_of_mem l hx))
    rw [scanAges]
    by_cases hc : isComment l
    · rw [if_pos hc, hm, ih']
      have : countDataRows (l :: ls) = countDataRows ls := by
        simp [countDataRows, List.countP_cons, hc]
      rw [this]
    · rw [if_neg hc]
      by_cases hd : hasDigit l
      · rw [if_pos hd, ih']
        have : countDataRows (l :: ls) = countDataRows ls + 1 := by
          simp [countDataRows, List.countP_cons, hc, hd]
        rw [this, List.replicate_succ]
      · rw [if_neg hd, ih']
        have : countDataRows (l :: ls) = countDataRows ls := by
          simp [countDataRows, List.countP_cons, hd]
        rw [this]

/-- Claim C2: in the `age` column built by `to_df`, the value attached to the
marker line `ml` applies to every data row that follows it until the next
marker: the rows of `suf` (a block containing no further well-formed marker)
all receive `a`, the value of the nearest preceding `#AGE=` marker. -/
theorem to_df_age_markers (pre : List String) (ml : String) (suf : List String)
    (a : ℚ) (hm : parseAgeMarker ml = some a)
    (hs : ∀ l ∈ suf, parseAgeMarker l = none) :
    toDfAges (pre ++ ml :: suf) = toDfAges pre ++ List.replicate (countDataRows suf) a := by
  unfold toDfAges
  rw [scanAges_append]
  congr 1
  rw [scanAges, if_pos (parseAgeMarker_isComment hm), hm]
  exact scanAges_no_marker suf a hs

/-- Concrete instantiation of `to_df_age_markers`: the marker `#AGE= 2.50`
stamps the one following data row with age `2.5`. -/
theorem to_df_age_markers_witness :
    parseAgeMarker "#AGE= 2.50 EEPS= 10" = some (5/2) ∧
    (∀ l ∈ (["1 2 3", "# comment"] : List String), parseAgeMarker l = none) ∧
    toDfAges ("#header" :: "#AGE= 2.50 EEPS= 10" :: ["1 2 3", "# comment"])
      = toDfAges ["#header"] ++ List.replicate (countDataRows ["1 2 3", "# comment"]) (5/2) := by
  have hm : parseAgeMarker "#AGE= 2.50 EEPS= 10" = some (5/2) := by
    have h : parseAgeMarker "#AGE= 2.50 EEPS= 10" = some (markerVal ['2'] ['5', '0']) := rfl
    rw [h]
    norm_num [markerVal, show digitsToNat ['2'] = 2 from by decide,
      show digitsToNat ['5', '0'] = 50 from by decide]
  exact ⟨hm, by decide,
    to_df_age_markers ["#header"] "#AGE= 2.50 EEPS= 10" ["1 2 3", "# comment"] (5/2) hm (by decide)⟩

/-! ## `to_df` error behaviour -/

/-- Split a character list into maximal whitespace-free runs; `acc` holds the
(reversed) run currently being read. -/
def splitFieldsAux : List Char → List Char → List (List Char)
  | [], acc => if acc = [] then [] else [acc.reverse]
  | c :: cs, acc =>
    if isPySpace c then
      if acc = [] then splitFieldsAux cs []
      else acc.reverse :: splitFieldsAux cs []
    else splitFieldsAux cs (c :: acc)

/-- The whitespace-separated fields of a line (numpy's default delimiter). -/
def fields (l : String) : List String :=
  (splitFieldsAux l.data []).map String.mk

example : fields " 1  0.5 3.6 " = ["1", "0.5", "3.6"] := by decide
example : fields "#EEP MMo LogTeff" = ["#EEP", "MMo", "LogTeff"] := by decide

/-- Strip the leading comment delimiter and whitespace off the names line, as
`genfromtxt` does before reading column names from it. -/
def stripHash (l : String) : String :=
  String.mk (l.data.dropWhile (fun c => c = '#' || isPySpace c))

/-- Modelled from the spec: the column names
`np.recfromtxt(filename, skip_header=8, names=True)` reads — it skips the
fixed-size 8-line header block and takes the names from the line immediately
preceding the data block (its comment delimiter stripped). -/
def namesOf (lines : List String) : List String :=
  fields (stripHash ((lines.drop 8).headD ""))

/-- Modelled from the spec: the candidate data rows of the numpy parse — the
lines after the header block and the names line, with comment lines and blank
lines skipped. -/
def dataLines (lines : List String) : List String :=
  ((lines.drop 8).drop 1).filter (fun l => !isComment l && !(fields l).isEmpty)

/-- Modelled from the spec: `np.recfromtxt` as used by `to_df` (external numpy
routine; the spec's Grid Loader contract makes unparseable header/rows fail
fast).  `.error` models the raise, which happens when there are no data rows
at all, or when some data row's field count differs from the number of column
names (`genfromtxt`'s default `invalid_raise=True`). -/
def recfromtxt (lines : List String) : Except Unit (List String) :=
  match dataLines lines with
  | [] => .error ()
  | rows =>
    if rows.all (fun l => (fields l).length = (namesOf lines).length)
      then .ok rows
      else .error ()

/-- The parsed track table built by `to_df`: the data rows, the `age` column
and the `feh` value. -/
structure TrackTable where
  rows : List String
  age : List ℚ
  feh : Option ℚ
  deriving Repr

/-- `DartmouthModelGrid.to_df` from `grid.py`: on a read failure it prints
`Error reading {filename}!` and raises `RuntimeError` (modelled as `.error`
carrying the printed message); otherwise it returns the table with the age
column from the marker scan and the filename-derived `feh`.  (The code
allocates `ages = np.zeros(len(df))` and fills position `i` per data line; in
the track files the data lines are exactly the parsed rows, so the column is
the scan's output — a file with more data lines than parsed rows would raise
an `IndexError` in Python and is not modelled.) -/
def to_df (filename : String) (lines : List String) : Except String TrackTable :=
  match recfromtxt lines with
  | .error _ => .error ("Error reading " ++ filename ++ "!")
  | .ok rows => .ok ⟨rows, toDfAges lines, get_feh filename⟩

/-- A track file whose `#AGE=` marker line is malformed (no parseable float)
but whose data block is intact: the single data row has three fields, matching
the three column names of the names line, so the numpy parse succeeds. -/
def malformedTrack : List String :=
  ["#h1", "#h2", "#h3", "#h4", "#h5", "#h6", "#h7", "#h8",
   "#EEP MMo LogTeff", "#AGE=banana", "1 0.5 3.6"]

/-- Claim C5, counterexample: `malformedTrack` contains a malformed `#AGE=`
marker line (it starts with `#AGE=` yet carries no parseable float), and its
data row is well-formed (field count equal to the number of column names, so
the table parse succeeds) — yet `to_df` does not raise: it silently returns a
table, with the data row's age left at the initial `0` because the malformed
marker was skipped. -/
theorem to_df_malformed_marker_counterexample :
    parseAgeMarker "#AGE=banana" = none ∧
    ("#AGE=banana").data.take 5 = ['#', 'A', 'G', 'E', '='] ∧
    "#AGE=banana" ∈ malformedTrack ∧
    namesOf malformedTrack = ["EEP", "MMo", "LogTeff"] ∧
    fields "1 0.5 3.6" = ["1", "0.5", "3.6"] ∧
    to_df "bad.iso" malformedTrack = .ok ⟨["1 0.5 3.6"], [0], none⟩ :=
  ⟨by decide, by decide, by decide, by decide, by decide, rfl⟩

/-- Claim C5 as amended: `to_df` raises (a `RuntimeError`, after printing a
message naming the offending file) exactly when the underlying numpy parse of
the table fails — no parseable data rows at all, or a data row whose field
count differs from the number of column names; a malformed `#AGE=` marker is
not an error — the marker line is silently skipped and the running age is
left unchanged. -/
theorem to_df_error_behaviour :
    (∀ (fname : String) (lines : List String),
      to_df fname lines = .error ("Error reading " ++ fname ++ "!") ↔
        (dataLines lines = [] ∨
         ∃ l ∈ dataLines lines, (fields l).length ≠ (namesOf lines).length)) ∧
    (∀ (l : String) (ls : List String) (cur : ℚ),
      isComment l = true → parseAgeMarker l = none →
      scanAges (l :: ls) cur = scanAges ls cur) := by
  constructor
  · intro fname lines
    cases h : dataLines lines with
    | nil => simp [to_df, recfromtxt, h]
    | cons r rs =>
      by_cases h2 : (r :: rs).all (fun l => (fields l).length = (namesOf lines).length)
      · simp only [to_df, recfromtxt, h, if_pos h2]
        constructor
        · intro hx; exact absurd hx (by simp)
        · rintro (hnil | ⟨l, hl, hne⟩)
          · exact absurd hnil (by simp)
          · have hx := List.all_eq_true.mp h2 l hl
            simp only [decide_eq_true_eq] at hx
            exact absurd hx hne
      · simp only [to_df, recfromtxt, h, if_neg h2]
        refine ⟨fun _ => ?_, fun _ => trivial⟩
        right
        rw [List.all_eq_true] at h2
        push_neg at h2
        obtain ⟨l, hl, hne⟩ := h2
        simp at hne
        exact ⟨l, hl, hne⟩
  · intro l ls cur hc hm
    rw [scanAges, if_pos hc, hm]

/-- Concrete instantiation of `to_df_error_behaviour`: a headers-only file is
rejected with the message naming it, a file whose data row has too few fields
for its three column names is rejected too, and a malformed marker line is
skipped. -/
theorem to_df_error_behaviour_witness :
    to_df "star.iso" ["#h1", "#h2", "#h3", "#h4", "#h5", "#h6", "#h7", "#h8", "#names"]
      = .error "Error reading star.iso!" ∧
    to_df "short.iso" ["#h1", "#h2", "#h3", "#h4", "#h5", "#h6", "#h7", "#h8",
        "#EEP MMo LogTeff", "0.5 3.6"]
      = .error "Error reading short.iso!" ∧
    scanAges ("#AGE=banana" :: ["1 2"]) 7 = scanAges ["1 2"] 7 :=
  ⟨(to_df_error_behaviour.1 "star.iso" _).mpr (Or.inl (by decide)),
   (to_df_error_behaviour.1 "short.iso" _).mpr
     (Or.inr ⟨"0.5 3.6", by decide, by decide⟩),
   to_df_error_behaviour.2 "#AGE=banana" ["1 2"] 7 (by decide) (by decide)⟩

/-! ## Grid aggregation (`DartmouthModelGrid.df_all`)

The `super().df_all(phot)` call returns the concatenation of the per-file
tables (the generic `ModelGrid` aggregator); our `df_all` takes that
concatenated table as its input and models the Dartmouth-specific steps:
age conversion, sorting by `(feh, age, MMo, EEP)` and setting the
`(feh, age)` index.  The table's numeric columns are `ℚ`; the `age` column
the code stores is `log10(age·1e9)`, a real number, exposed through
`convertAge`/`storedAges`.  Since `x ↦ log10(x·1e9)` is increasing in the
age (with `log10 0 = -inf` for the float code), sorting on the raw age, as
done here, orders the rows exactly as the code's sort on the converted age. -/

/-- One row of the aggregated grid table (the columns the Dartmouth claims
touch: evolutionary-phase index, mass, age in Gyr, metallicity). -/
structure GridRow where
  EEP : ℤ
  MMo : ℚ
  age : ℚ
  feh : ℚ
  deriving Repr, DecidableEq

/-- The `sort_values(by=['feh','age','MMo','EEP'])` key: lexicographic on the
four columns. -/
def rowKey (r : GridRow) : Lex (ℚ × Lex (ℚ × Lex (ℚ × ℤ))) :=
  toLex (r.feh, toLex (r.age, toLex (r.MMo, r.EEP)))

/-- Row comparison used by the sort. -/
def rowLE (r s : GridRow) : Prop :=
  rowKey r ≤ rowKey s

instance : DecidableRel rowLE :=
  fun r s => inferInstanceAs (Decidable (rowKey r ≤ rowKey s))

instance : IsTotal GridRow rowLE :=
  ⟨fun a b => le_total (rowKey a) (rowKey b)⟩

instance : IsTrans GridRow rowLE :=
  ⟨fun _ _ _ hab hbc => le_trans hab hbc⟩

/-- `np.log10(age * 1e9)`: the age-unit conversion applied to the `age`
column by `df_all` (linear Gyr to log10 of years).  `noncomputable` only
because real logarithms carry no executable code; every witness below
evaluates it through the proved equations instead. -/
noncomputable def convertAge (a : ℝ) : ℝ :=
  Real.logb 10 (a * 10 ^ (9 : ℕ))

/-- `DartmouthModelGrid.df_all` on the concatenated input table: sort by
`(feh, age, MMo, EEP)`.  (The HST column renaming only retitles magnitude
columns and touches none of these fields.) -/
def df_all (rows : List GridRow) : List GridRow :=
  List.insertionSort rowLE rows

/-- The stored `age` column of the aggregated table: the converted value, in
row order of the sorted table. -/
noncomputable def storedAges (rows : List GridRow) : List ℝ :=
  (df_all rows).map (fun r => convertAge (r.age : ℝ))

/-- `df.index = [df.feh, df.age]`: the `(feh, age)` index keys of the
aggregated table, in row order. -/
noncomputable def indexKeys (rows : List GridRow) : List (ℚ × ℝ) :=
  (df_all rows).map (fun r => (r.feh, convertAge (r.age : ℝ)))

/-- Claim C3: the stored `age` column is log10 of the age in years — `10`
raised to the stored value recovers `age·10⁹` — a loader-level age of `1.0`
(linear Gyr) is stored as exactly `9.0`, and every input row's converted age
appears in the aggregated table's age column. -/
theorem df_all_log_age :
    (∀ a : ℝ, 0 < a → (10 : ℝ) ^ convertAge a = a * 10 ^ (9 : ℕ)) ∧
    convertAge 1 = 9 ∧
    (∀ (rows : List GridRow) (r : GridRow), r ∈ rows →
      convertAge (r.age : ℝ) ∈ storedAges rows) := by
  refine ⟨fun a ha => ?_, ?_, fun rows r hr => ?_⟩
  · exact Real.rpow_logb (by norm_num) (by norm_num) (by positivity)
  · rw [convertAge, one_mul, Real.logb_pow, Real.logb_self_eq_one (by norm_num)]
    norm_num
  · exact List.mem_map_of_mem _ ((List.mem_insertionSort rowLE).mpr hr)

/-- Concrete instantiation of `df_all_log_age` at age `1.0` and a one-row
table. -/
theorem df_all_log_age_witness :
    (10 : ℝ) ^ convertAge 1 = 1 * 10 ^ (9 : ℕ) ∧
    convertAge ((⟨1, 1, 1, 0⟩ : GridRow).age : ℝ) ∈ storedAges [⟨1, 1, 1, 0⟩] :=
  ⟨df_all_log_age.1 1 one_pos,
   df_all_log_age.2.2 [⟨1, 1, 1, 0⟩] ⟨1, 1, 1, 0⟩ (List.mem_singleton.mpr rfl)⟩

/-- Two rows at the same `(feh, age)` but different masses: one isochrone
point pair. -/
def dupRows : List GridRow :=
  [⟨1, 1, 1, 0⟩, ⟨2, 2, 1, 0⟩]

/-- Claim C8, counterexample: after `df_all` sorts and sets the `(feh, age)`
index, the index is not unique — the two rows of `dupRows`, which differ in
mass and EEP but agree on `(feh, age)`, share one index key. -/
theorem df_all_index_not_unique :
    dupRows.length = 2 ∧
    (∀ r ∈ dupRows, (r.feh, r.age) = (0, 1)) ∧
    ¬ (indexKeys dupRows).Nodup := by
  refine ⟨rfl, by decide, ?_⟩
  have h : df_all dupRows = dupRows := by decide
  rw [indexKeys, h]
  simp [dupRows, List.nodup_cons]

/-- Claim C8 as amended: `df_all` returns the input table sorted by
`(feh, age, MMo, EEP)` — a permutation of the input rows, sorted under the
lexicographic row order — and sets a `(feh, age)` row index; that index is
not unique in general (rows differing only in mass/EEP share a key, as
`df_all_index_not_unique` shows). -/
theorem df_all_sorted_perm :
    ∀ rows : List GridRow,
      (df_all rows).Perm rows ∧ (df_all rows).Sorted rowLE :=
  fun rows => ⟨List.perm_insertionSort rowLE rows, List.sorted_insertionSort rowLE rows⟩

/-! ## Triangulation cache file names (`tri.py`) -/

/-- Modelled from the spec: the process-wide cache directory
`config.ISOCHRONES` (the `isochrones.config` module is not under `src/`; the
spec calls it read-only, process-wide configuration).  Its concrete value is
irrelevant to the claims — every proof below treats it as an opaque leading
path component. -/
def ISOCHRONES : String :=
  "~/.isochrones"

/-- The suffix block `'{}{}'.format(afe_suffix, y_suffix)` of `tri_filename`. -/
def triSuffix (afe y : String) : String :=
  (if afe = "afep0" then "" else "_" ++ afe) ++ (if y = "" then "" else "_" ++ y)

/-- `tri_filename` from `tri.py`:
`os.path.join(ISOCHRONES, 'dartmouth{}{}.tri'.format(afe_suffix, y_suffix))`.
Note the signature: the photometric system is not a parameter. -/
def tri_filename (afe y : String) : String :=
  ISOCHRONES ++ "/" ++ ("dartmouth" ++ triSuffix afe y ++ ".tri")

/-- The cache path `write_tri` serializes to: the explicit `filename` argument
if given, else `tri_filename(afe, y)`; the `bands` argument (which selects the
photometric system of the grid being triangulated) never enters the path. -/
def write_tri_filename (filename : Option String) (afe y : String)
    (bands : List String) : String :=
  filename.getD (tri_filename afe y)

example : tri_filename "afep0" "" = "~/.isochrones/dartmouth.tri" := rfl
example : tri_filename "afem2" "" = "~/.isochrones/dartmouth_afem2.tri" := rfl
example : tri_filename "afep0" "y33" = "~/.isochrones/dartmouth_y33.tri" := rfl

/-- Peeling the fixed prefix and the fixed `.tri` suffix off equal cache
paths leaves equal suffix blocks. -/
theorem tri_filename_inj_suffix {afe y afe' y' : String}
    (h : tri_filename afe y = tri_filename afe' y') :
    triSuffix afe y = triSuffix afe' y' := by
  have h2 := congrArg String.data h
  simp only [tri_filename, String.data_append, List.append_assoc] at h2
  have h3 := List.append_cancel_left h2
  have h4 := List.append_cancel_left h3
  have h5 := List.append_cancel_left h4
  exact String.ext (List.append_cancel_right h5)

/-- The `y_suffix` encoding is injective. -/
theorem ySuffix_inj {y y' : String}
    (h : (if y = "" then "" else "_" ++ y) = (if y' = "" then "" else "_" ++ y')) :
    y = y' := by
  by_cases hy : y = "" <;> by_cases hy' : y' = ""
  · rw [hy, hy']
  · rw [if_pos hy, if_neg hy'] at h
    have hd := congrArg String.data h
    simp [String.data_append] at hd
  · rw [if_neg hy, if_pos hy'] at h
    have hd := congrArg String.data h
    simp [String.data_append] at hd
  · rw [if_neg hy, if_neg hy'] at h
    have h2 := congrArg String.data h
    simp only [String.data_append] at h2
    exact String.ext (List.append_cancel_left h2)

/-- The `afe_suffix` encoding is injective. -/
theorem afeSuffix_inj {afe afe' : String}
    (h : (if afe = "afep0" then "" else "_" ++ afe)
        = (if afe' = "afep0" then "" else "_" ++ afe')) :
    afe = afe' := by
  by_cases ha : afe = "afep0" <;> by_cases ha' : afe' = "afep0"
  · rw [ha, ha']
  · rw [if_pos ha, if_neg ha'] at h
    have := congrArg String.data h
    simp [String.data_append] at this
  · rw [if_neg ha, if_pos ha'] at h
    have := congrArg String.data h
    simp [String.data_append] at this
  · rw [if_neg ha, if_neg ha'] at h
    have h2 := congrArg String.data h
    simp only [String.data_append] at h2
    exact String.ext (List.append_cancel_left h2)

/-- Claim C6, counterexample: the cache path is not keyed by the full
(photometric system, afe, y) combination.  `write_tri`'s default path ignores
the band list (which is what selects the photometric system), so two distinct
system selections share one path; and even the (afe, y) encoding collides:
`afe='afem2', y=''` and `afe='afep0', y='afem2'` name the same file. -/
theorem tri_filename_key_counterexample :
    write_tri_filename none "afep0" "" ["g"] = write_tri_filename none "afep0" "" ["W1"] ∧
    (["g"] : List String) ≠ ["W1"] ∧
    tri_filename "afem2" "" = tri_filename "afep0" "afem2" ∧
    (("afem2", "") : String × String) ≠ ("afep0", "afem2") :=
  ⟨rfl, by decide, rfl, by decide⟩

/-- Claim C6 as amended: the triangulation cache file name is keyed by
`(afe, y)` only — the photometric system is not part of the key (`tri_filename`
does not take it and `write_tri`'s default path ignores `bands`).  Along each
single axis the key is faithful: for a fixed afe, distinct y values give
distinct paths, and for a fixed y, distinct afe values give distinct paths
(though mixed (afe, y) combinations can collide, as the counterexample shows). -/
theorem tri_filename_axis_injective :
    (∀ afe y y', tri_filename afe y = tri_filename afe y' → y = y') ∧
    (∀ afe afe' y, tri_filename afe y = tri_filename afe' y → afe = afe') := by
  constructor
  · intro afe y y' h
    have hs := tri_filename_inj_suffix h
    rw [triSuffix, triSuffix] at hs
    have h2 := congrArg String.data hs
    simp only [String.data_append] at h2
    exact ySuffix_inj (String.ext (List.append_cancel_left h2))
  · intro afe afe' y h
    have hs := tri_filename_inj_suffix h
    rw [triSuffix, triSuffix] at hs
    have h2 := congrArg String.data hs
    simp only [String.data_append] at h2
    exact afeSuffix_inj (String.ext (List.append_cancel_right h2))

/-- Concrete instantiation of `tri_filename_axis_injective` on both axes. -/
theorem tri_filename_axis_injective_witness :
    ("y33" : String) = "y33" ∧ ("afem2" : String) = "afem2" :=
  ⟨tri_filename_axis_injective.1 "afep0" "y33" "y33" rfl,
   tri_filename_axis_injective.2 "afem2" "afem2" "" rfl⟩

/-! ## Serialized triangulation (`write_tri`) -/

/-- Modelled from the spec / scipy's documented semantics: the simplicial
decomposition (`scipy.spatial` Delaunay triangulation) underlying
`LinearNDInterpolator`; it is determined by the input point cloud alone, so it
is represented by that defining data. -/
structure Triangulation where
  points : List (ℝ × ℝ × ℝ)

/-- Modelled from the spec: `scipy.interpolate.LinearNDInterpolator(pts, mags)`
(external library): precomputes the triangulation `tri` of `pts` and stores
the per-point values separately; `tri` depends only on the points. -/
structure LinearNDInterpolator where
  tri : Triangulation
  values : List (Option ℝ)

/-- `interpnd(pts, mags)` as called by `write_tri`. -/
def interpnd (pts : List (ℝ × ℝ × ℝ)) (mags : List (Option ℝ)) :
    LinearNDInterpolator :=
  ⟨⟨pts⟩, mags⟩

/-- One row of the aggregated grid `DartmouthModelGrid(bands, afe=afe, y=y).df`
as `write_tri` consumes it: the three coordinate columns and the per-band
magnitude columns. -/
structure DfRow where
  MMo : ℝ
  age : ℝ
  feh : ℝ
  mags : List (String × ℝ)

/-- The `N×3` array `pts` built by `write_tri`: columns `MMo`, `age`, `feh`. -/
def dfPoints (df : List DfRow) : List (ℝ × ℝ × ℝ) :=
  df.map (fun r => (r.MMo, r.age, r.feh))

/-- `np.array(df[b])`: one magnitude column (`none` models a missing column,
which in Python would raise a `KeyError`). -/
def dfColumn (df : List DfRow) (b : String) : List (Option ℝ) :=
  df.map (fun r => r.mags.lookup b)

/-- The object `write_tri` pickles: `magfn.tri`, where
`magfn = interpnd(pts, mags)` and `mags` is the column of `bands[0]`
(`headD` models the indexing; an empty band list raises in Python). -/
def write_tri_payload (df : List DfRow) (bands : List String) : Triangulation :=
  (interpnd (dfPoints df) (dfColumn df (bands.headD ""))).tri

/-- Claim C7: the serialized triangulation depends only on the coordinate
columns `(MMo, age, feh)` of the grid rows — two grids with identical
coordinate columns yield the same pickled triangulation, whatever their
magnitude columns (even under different requested band lists). -/
theorem write_tri_coords_only (df1 df2 : List DfRow) (bands1 bands2 : List String)
    (h : dfPoints df1 = dfPoints df2) :
    write_tri_payload df1 bands1 = write_tri_payload df2 bands2 := by
  simp only [write_tri_payload, interpnd, h]

/-- Concrete instantiation of `write_tri_coords_only`: same coordinates,
different `g` magnitudes, same serialized triangulation. -/
theorem write_tri_coords_only_witness :
    dfPoints [⟨1, 9, 0, [("g", 5)]⟩] = dfPoints [⟨1, 9, 0, [("g", 7)]⟩] ∧
    write_tri_payload [⟨1, 9, 0, [("g", 5)]⟩] ["g"]
      = write_tri_payload [⟨1, 9, 0, [("g", 7)]⟩] ["g"] :=
  ⟨rfl, write_tri_coords_only [⟨1, 9, 0, [("g", 5)]⟩] [⟨1, 9, 0, [("g", 7)]⟩] ["g"] ["g"] rfl⟩

/-! ## Aggregated-grid cache file name (`DartmouthModelGrid.hdf_filename`) -/

/-- `DartmouthModelGrid.datadir`: `os.path.join(ISOCHRONES, 'dartmouth')`. -/
def datadir : String :=
  ISOCHRONES ++ "/dartmouth"

/-- `DartmouthModelGrid.hdf_filename` from `grid.py`:
`os.path.join(datadir, '{}{}.h5'.format(phot, afe_str, y))` with
`afe_str = '_{afe}' if afe != 'afep0' else ''`.  The format string has two
placeholders but three arguments, so the third argument `y` is ignored. -/
def hdf_filename (phot afe y : String) : String :=
  datadir ++ "/" ++ (phot ++ (if afe = "afep0" then "" else "_" ++ afe) ++ ".h5")

/-- Claim C10: `hdf_filename` ignores the `y` parameter — any two `y` values
give the identical aggregated-grid cache path
`datadir/<phot><afe_str>.h5` — so grid variants differing only in `y` share
one cache file. -/
theorem hdf_filename_ignores_y :
    (∀ phot afe y y', hdf_filename phot afe y = hdf_filename phot afe y') ∧
    (∀ phot afe y, hdf_filename phot afe y
      = datadir ++ "/" ++ (phot ++ (if afe = "afep0" then "" else "_" ++ afe) ++ ".h5")) ∧
    hdf_filename "SDSSugriz" "afep0" "y33" = "~/.isochrones/dartmouth/SDSSugriz.h5" ∧
    hdf_filename "SDSSugriz" "afem2" "" = "~/.isochrones/dartmouth/SDSSugriz_afem2.h5" :=
  ⟨fun _ _ _ _ => rfl, fun _ _ _ => rfl, rfl, rfl⟩

/-! ## Posterior persistence round-trip (`StarModel.save_hdf` / `load_hdf`)

`StarModel` lives outside `src/`; only its test (`tests/test_fits.py`,
`_check_saving`) is in the sources.  The persistence operations are therefore
modelled from the spec: the persisted container records the posterior sample
table and the photometric band list, a reload reproduces both, and neither
operation leaves an open file handle behind (`_check_saving` asserts the
open-handle count for the file is zero after `save_hdf` and after
`load_hdf`, and compares `samples` and `ic.bands`). -/

/-- Modelled from the spec: the fitted model state that persistence touches —
the posterior sample table (rows of parameter values) and the band list. -/
structure StarModel where
  samples : List (List ℚ)
  bands : List String
  deriving Repr, DecidableEq

/-- Modelled from the spec: the HDF5 store — named files holding a persisted
(sample table, band list) pair, plus the currently open handles (a multiset,
as `tables.file._open_files` tracks them). -/
structure HDF5State where
  files : List (String × (List (List ℚ) × List String))
  handles : List String
  deriving Repr, DecidableEq

/-- Open a handle on `fname`. -/
def openFile (st : HDF5State) (fname : String) : HDF5State :=
  { st with handles := fname :: st.handles }

/-- Close one handle on `fname`. -/
def closeFile (st : HDF5State) (fname : String) : HDF5State :=
  { st with handles := st.handles.erase fname }

/-- Modelled from the spec: `StarModel.save_hdf` — open the file, write the
sample table and band list (replacing any previous content), close the
handle. -/
def save_hdf (mod : StarModel) (st : HDF5State) (fname : String) : HDF5State :=
  let st1 := openFile st fname
  let st2 := { st1 with
    files := (fname, (mod.samples, mod.bands)) :: st1.files.filter (fun p => p.1 != fname) }
  closeFile st2 fname

/-- Modelled from the spec: `StarModel.load_hdf` — open the file, read the
persisted pair back into a model, close the handle. -/
def load_hdf (st : HDF5State) (fname : String) : Option StarModel × HDF5State :=
  let st1 := openFile st fname
  ((st1.files.find? (fun p => p.1 == fname)).map (fun p => StarModel.mk p.2.1 p.2.2),
   closeFile st1 fname)

/-- Number of open handles on `fname` (what
`tb.file._open_files.get_handlers_by_name` counts in `_check_saving`). -/
def openCount (st : HDF5State) (fname : String) : ℕ :=
  st.handles.count fname

/-- Claim C9: saving a fitted model and loading it back reproduces the
posterior sample table and the band list exactly, and neither operation
leaves an open handle on the file (starting from a state with no handle open
on it, as in the test's fresh temporary file). -/
theorem save_load_round_trip (mod : StarModel) (st : HDF5State) (fname : String)
    (h : fname ∉ st.handles) :
    openCount (save_hdf mod st fname) fname = 0 ∧
    (load_hdf (save_hdf mod st fname) fname).1 = some mod ∧
    openCount (load_hdf (save_hdf mod st fname) fname).2 fname = 0 := by
  have hs : (save_hdf mod st fname).handles = st.handles := by
    simp [save_hdf, openFile, closeFile]
  refine ⟨?_, ?_, ?_⟩
  · rw [openCount, hs]
    exact List.count_eq_zero.mpr h
  · simp [load_hdf, openFile, save_hdf, closeFile, List.find?]
  · have : (load_hdf (save_hdf mod st fname) fname).2.handles
        = (save_hdf mod st fname).handles := by
      simp [load_hdf, openFile, closeFile]
    rw [openCount, this, hs]
    exact List.count_eq_zero.mpr h

/-- Concrete instantiation of `save_load_round_trip` on an empty store. -/
theorem save_load_round_trip_witness :
    "fit.h5" ∉ (⟨[], []⟩ : HDF5State).handles ∧
    (load_hdf (save_hdf ⟨[[1, 2]], ["g", "K"]⟩ ⟨[], []⟩ "fit.h5") "fit.h5").1
      = some ⟨[[1, 2]], ["g", "K"]⟩ ∧
    openCount (save_hdf ⟨[[1, 2]], ["g", "K"]⟩ ⟨[], []⟩ "fit.h5") "fit.h5" = 0 :=
  ⟨by simp, (save_load_round_trip ⟨[[1, 2]], ["g", "K"]⟩ ⟨[], []⟩ "fit.h5" (by simp)).2.1,
   (save_load_round_trip ⟨[[1, 2]], ["g", "K"]⟩ ⟨[], []⟩ "fit.h5" (by simp)).1⟩

end Isochrones
